import Mathlib

/-!
Verification of the ICMP ping client (`main.go`) against its
natural-language specification.

Bytes are modelled as `Nat` values; Go's `uint32` accumulator arithmetic
is modelled with explicit `% 2 ^ 32` reductions where the source can
overflow, and `uint16`/`byte` conversions with `% 2 ^ 16` / `% 2 ^ 8`.
-/

namespace Ping

/-- The source's accumulation loop in `checkSum` (`main.go` lines 136-143):
while more than one byte remains, add `data[idx] << 8 + data[idx+1]` to the
32-bit accumulator; a final unpaired byte is added unshifted. -/
def sumLoop : List Nat → Nat → Nat
  | [], sum => sum
  | [b], sum => (sum + b) % 2 ^ 32
  | b1 :: b2 :: rest, sum => sumLoop rest ((sum + (b1 * 2 ^ 8 + b2)) % 2 ^ 32)

/-- The source's fold loop in `checkSum` (`main.go` lines 148-152): while the
high 16 bits are nonzero, replace the sum by high 16 bits plus low 16 bits. -/
def fold16 (sum : Nat) : Nat :=
  if sum / 2 ^ 16 = 0 then sum
  else fold16 (sum / 2 ^ 16 + sum % 2 ^ 16)
  termination_by sum
  decreasing_by omega

/-- The checksum value returned by `checkSum` (`main.go` line 154):
the 16-bit truncation of the bitwise complement of the folded 32-bit sum. -/
def checkSumVal (data : List Nat) : Nat :=
  (2 ^ 32 - 1 - fold16 (sumLoop data 0)) % 2 ^ 16

/-- The full result of Go's `checkSum`, value together with the `error`
component, which the source always returns as `nil` (`main.go` line 154). -/
def checkSumGo (data : List Nat) : Nat × Option String :=
  (checkSumVal data, none)

/-- Modelled from the claim's words (RFC 1071): pair up bytes at even/odd
offsets into 16-bit big-endian words `byte[2k] <<< 8 ||| byte[2k+1]`; an odd
final byte stands alone unshifted. -/
def specWords : List Nat → List Nat
  | [] => []
  | [b] => [b]
  | b1 :: b2 :: rest => (b1 <<< 8 ||| b2) :: specWords rest

/-- Modelled from the claim's words: sum the words into a 32-bit
accumulator, fold by repeatedly adding the high 16 bits to the low 16 bits
until the high 16 bits are zero, and return the bitwise complement of the
16-bit result. -/
def specChecksum (data : List Nat) : Nat :=
  let s := (specWords data).foldl (fun acc w => (acc + w) % 2 ^ 32) 0
  let folded := fold16 s
  2 ^ 16 - 1 - folded % 2 ^ 16

/-- The ICMP header bytes produced by `binary.Write(&buffer, binary.BigEndian,
icmp)` from the `ICMP` struct of iteration `i` (`main.go` lines 59-71): type 8,
code 0, checksum placeholder 0, identifier and sequence number both
`uint16(i)`, each multi-byte field in big-endian order. -/
def icmpHeader (i : Nat) : List Nat :=
  [8, 0, 0, 0,
   i % 2 ^ 16 / 2 ^ 8, i % 2 ^ 16 % 2 ^ 8,
   i % 2 ^ 16 / 2 ^ 8, i % 2 ^ 16 % 2 ^ 8]

/-- The datagram transmitted on iteration `i` (`main.go` lines 59-86): the
big-endian header, `size` zero payload bytes, then the checksum of the whole
buffer written as `data[2] = byte(checkSum >> 8)`, `data[3] = byte(checkSum)`. -/
def buildPacket (i size : Nat) : List Nat :=
  let data := icmpHeader i ++ List.replicate size 0
  let c := (checkSumGo data).1
  (data.set 2 (c / 2 ^ 8)).set 3 (c % 2 ^ 8)

/-- The run-statistics counters of `main.go` lines 14-24. Latencies are in
milliseconds; `time.Since` is non-negative, so they are modelled as `Nat`. -/
structure Stats where
  sendCount : Nat
  successCount : Nat
  failCount : Nat
  minTs : Nat
  maxTs : Nat
  totalTs : Nat

/-- Initial counter values (`main.go` lines 14-24): all zero except
`minTs = math.MaxInt32`. -/
def initStats : Stats :=
  { sendCount := 0, successCount := 0, failCount := 0
    minTs := 2 ^ 31 - 1, maxTs := 0, totalTs := 0 }

/-- How one loop iteration can end. `elapsed` is the attempt's wall-clock
time in milliseconds; a checksum failure aborts before `tStart` is taken. -/
inductive Outcome where
  | checksumFail
  | writeFail (elapsed : Nat)
  | readFail (elapsed : Nat)
  | success (elapsed : Nat)

/-- Whether the attempt reaches the point where the source computes `tSpend`
and updates the latency statistics (`main.go` lines 104-111): only attempts
that get past `conn.Write` do. -/
def Outcome.records : Outcome → Bool
  | .checksumFail => false
  | .writeFail _ => false
  | .readFail _ => true
  | .success _ => true

/-- The attempt's elapsed wall-clock time; an attempt aborted at the
checksum never starts the timer. -/
def Outcome.elapsed : Outcome → Nat
  | .checksumFail => 0
  | .writeFail t => t
  | .readFail t => t
  | .success t => t

/-- One iteration of the `ping` loop (`main.go` lines 55-120) acting on the
statistics counters, given the attempt's outcome: `sendCount` is always
incremented; a checksum or write failure increments `failCount` and skips the
latency update (`continue` before `tSpend` is computed); a read error or a
success first updates `totalTs`/`minTs`/`maxTs` from `tSpend`, then
increments `failCount` or `successCount` respectively. -/
def step (s : Stats) (o : Outcome) : Stats :=
  let s := { s with sendCount := s.sendCount + 1 }
  match o with
  | .checksumFail => { s with failCount := s.failCount + 1 }
  | .writeFail _ => { s with failCount := s.failCount + 1 }
  | .readFail t =>
    { s with totalTs := s.totalTs + t
             minTs := if t < s.minTs then t else s.minTs
             maxTs := if s.maxTs < t then t else s.maxTs
             failCount := s.failCount + 1 }
  | .success t =>
    { s with totalTs := s.totalTs + t
             minTs := if t < s.minTs then t else s.minTs
             maxTs := if s.maxTs < t then t else s.maxTs
             successCount := s.successCount + 1 }

/-- The statistics at the end of a run whose `count` iterations ended with
the given outcomes (`main.go` lines 55-120). -/
def run (outcomes : List Outcome) : Stats :=
  outcomes.foldl step initStats

/-- Which branch one iteration takes, given the results of the fallible
operations (`main.go` lines 79-119): the checksum error is tested first,
then the write error, then the read error. -/
def attemptOutcome (i size : Nat) (writeErr readErr : Option String)
    (elapsed : Nat) : Outcome :=
  match (checkSumGo (icmpHeader i ++ List.replicate size 0)).2 with
  | some _ => .checksumFail
  | none =>
    match writeErr with
    | some _ => .writeFail elapsed
    | none =>
      match readErr with
      | some _ => .readFail elapsed
      | none => .success elapsed

/-- The fields printed on the reply line (`main.go` line 119). -/
structure ReplyInfo where
  src0 : Nat
  src1 : Nat
  src2 : Nat
  src3 : Nat
  payloadLen : Int
  ttl : Nat

/-- The read-result handling (`main.go` lines 100-119): on a read error no
reply is reported; otherwise the reply line is built from bytes 12-15
(source address), `n - 28` (payload length) and byte 8 (TTL) of the
received buffer, with no other byte inspected. -/
def handleRead (buf : List Nat) (n : Nat) (readErr : Option String) :
    Option ReplyInfo :=
  match readErr with
  | some _ => none
  | none =>
    some { src0 := buf.getD 12 0, src1 := buf.getD 13 0
           src2 := buf.getD 14 0, src3 := buf.getD 15 0
           payloadLen := (n : Int) - 28, ttl := buf.getD 8 0 }

/-- The loss fraction passed to the `%.2f%%` verb of the final summary
(`main.go` line 124): `float64(failCount) / float64(sendCount)`, modelled
exactly over the rationals. -/
def lossValue (s : Stats) : ℚ :=
  (s.failCount : ℚ) / (s.sendCount : ℚ)

/-- The average passed to the last `%d` verb of the final summary
(`main.go` line 124): the integer division `totalTs / int64(sendCount)`,
which panics when `sendCount = 0`, modelled as `none` in that case. -/
def avgTs (s : Stats) : Option Nat :=
  if s.sendCount = 0 then none else some (s.totalTs / s.sendCount)

/-! ### Helper lemmas about the checksum -/

/-- The exact word sum of a byte list, without the 32-bit truncation. -/
def natSum : List Nat → Nat
  | [] => 0
  | [b] => b
  | b1 :: b2 :: rest => b1 * 2 ^ 8 + b2 + natSum rest

theorem fold16_lt (s : Nat) : fold16 s < 2 ^ 16 := by
  induction s using fold16.induct with
  | case1 x h => rw [fold16, if_pos h]; omega
  | case2 x h ih => rw [fold16, if_neg h]; exact ih

theorem fold16_le (s : Nat) : fold16 s ≤ s := by
  induction s using fold16.induct with
  | case1 x h => rw [fold16, if_pos h]
  | case2 x h ih => rw [fold16, if_neg h]; omega

theorem fold16_mod (s : Nat) : fold16 s % (2 ^ 16 - 1) = s % (2 ^ 16 - 1) := by
  induction s using fold16.induct with
  | case1 x h => rw [fold16, if_pos h]
  | case2 x h ih => rw [fold16, if_neg h]; omega

theorem fold16_pos (s : Nat) (h : 0 < s) : 0 < fold16 s := by
  induction s using fold16.induct with
  | case1 x hx => rw [fold16, if_pos hx]; exact h
  | case2 x hx ih => rw [fold16, if_neg hx]; exact ih (by omega)

theorem sumLoop_eq (data : List Nat) : ∀ acc : Nat, acc < 2 ^ 32 →
    sumLoop data acc = (acc + natSum data) % 2 ^ 32 := by
  induction data using specWords.induct with
  | case1 =>
    intro acc h
    simp only [sumLoop, natSum]
    omega
  | case2 b =>
    intro acc h
    simp [sumLoop, natSum]
  | case3 b1 b2 rest ih =>
    intro acc h
    show sumLoop rest ((acc + (b1 * 2 ^ 8 + b2)) % 2 ^ 32) = _
    rw [ih _ (Nat.mod_lt _ (by norm_num)), Nat.mod_add_mod, natSum, Nat.add_assoc]

theorem shiftLeft_or_eq (b1 b2 : Nat) (h : b2 < 2 ^ 8) :
    b1 <<< 8 ||| b2 = b1 * 2 ^ 8 + b2 := by
  rw [Nat.shiftLeft_eq, Nat.mul_comm b1 (2 ^ 8), ← Nat.mul_add_lt_is_or h, Nat.mul_comm]

theorem specFoldl_eq (data : List Nat) : (∀ b ∈ data, b < 2 ^ 8) →
    ∀ acc : Nat, acc < 2 ^ 32 →
    (specWords data).foldl (fun acc w => (acc + w) % 2 ^ 32) acc
      = (acc + natSum data) % 2 ^ 32 := by
  induction data using specWords.induct with
  | case1 =>
    intro _ acc h
    simp only [specWords, List.foldl_nil, natSum]
    omega
  | case2 b =>
    intro _ acc h
    simp [specWords, natSum]
  | case3 b1 b2 rest ih =>
    intro hb acc h
    have h2 : b2 < 2 ^ 8 := hb b2 (by simp)
    show List.foldl _ ((acc + (b1 <<< 8 ||| b2)) % 2 ^ 32) (specWords rest) = _
    rw [shiftLeft_or_eq b1 b2 h2,
      ih (fun b m => hb b (by simp [m])) _ (Nat.mod_lt _ (by norm_num)),
      Nat.mod_add_mod, natSum, Nat.add_assoc]

/-! ### Helper lemmas about the statistics loop -/

theorem foldl_sent_eq (l : List Outcome) : ∀ s : Stats,
    s.sendCount = s.successCount + s.failCount →
    (l.foldl step s).sendCount
      = (l.foldl step s).successCount + (l.foldl step s).failCount := by
  induction l with
  | nil => intro s h; exact h
  | cons o l ih =>
    intro s h
    rw [List.foldl_cons]
    apply ih
    cases o <;> simp [step] <;> omega

theorem foldl_bounds (l : List Outcome) (hl : ∀ o ∈ l, o.records = true) :
    ∀ s : Stats,
    s.minTs * s.sendCount ≤ s.totalTs → s.totalTs ≤ s.maxTs * s.sendCount →
    (l.foldl step s).minTs * (l.foldl step s).sendCount ≤ (l.foldl step s).totalTs ∧
    (l.foldl step s).totalTs ≤ (l.foldl step s).maxTs * (l.foldl step s).sendCount := by
  induction l with
  | nil => intro s h1 h2; exact ⟨h1, h2⟩
  | cons o l ih =>
    intro s h1 h2
    rw [List.foldl_cons]
    have ho : o.records = true := hl o (List.mem_cons_self o l)
    refine ih (fun x m => hl x (List.mem_cons_of_mem o m)) (step s o) ?_ ?_
    · cases o with
      | checksumFail => simp [Outcome.records] at ho
      | writeFail t => simp [Outcome.records] at ho
      | readFail t =>
        simp only [step]
        have hmin : (if t < s.minTs then t else s.minTs) ≤ s.minTs := by split <;> omega
        have hmin2 : (if t < s.minTs then t else s.minTs) ≤ t := by split <;> omega
        have hmul := Nat.mul_le_mul_right s.sendCount hmin
        rw [Nat.mul_succ]
        omega
      | success t =>
        simp only [step]
        have hmin : (if t < s.minTs then t else s.minTs) ≤ s.minTs := by split <;> omega
        have hmin2 : (if t < s.minTs then t else s.minTs) ≤ t := by split <;> omega
        have hmul := Nat.mul_le_mul_right s.sendCount hmin
        rw [Nat.mul_succ]
        omega
    · cases o with
      | checksumFail => simp [Outcome.records] at ho
      | writeFail t => simp [Outcome.records] at ho
      | readFail t =>
        simp only [step]
        have hmax : s.maxTs ≤ (if s.maxTs < t then t else s.maxTs) := by split <;> omega
        have hmax2 : t ≤ (if s.maxTs < t then t else s.maxTs) := by split <;> omega
        have hmul := Nat.mul_le_mul_right s.sendCount hmax
        rw [Nat.mul_succ]
        omega
      | success t =>
        simp only [step]
        have hmax : s.maxTs ≤ (if s.maxTs < t then t else s.maxTs) := by split <;> omega
        have hmax2 : t ≤ (if s.maxTs < t then t else s.maxTs) := by split <;> omega
        have hmul := Nat.mul_le_mul_right s.sendCount hmax
        rw [Nat.mul_succ]
        omega

end Ping

/-! ### Claims -/

/-- C1: `checkSum` computes the RFC 1071 Internet checksum: on every byte
sequence it agrees with the specification that sums the 16-bit big-endian
words into a 32-bit accumulator (an odd trailing byte added unshifted),
folds the high 16 bits into the low 16 bits until the high part is zero,
and complements the 16-bit result; and it maps `[]` to `0xFFFF`,
`[0x00, 0x01]` to `0xFFFE` and `[0xFF, 0xFF, 0x01]` to `0xFFFE`. -/
theorem checkSum_is_rfc1071 :
    (∀ data : List Nat, (∀ b ∈ data, b < 2 ^ 8) →
      Ping.checkSumVal data = Ping.specChecksum data) ∧
    Ping.checkSumVal [] = 0xFFFF ∧
    Ping.checkSumVal [0x00, 0x01] = 0xFFFE ∧
    Ping.checkSumVal [0xFF, 0xFF, 0x01] = 0xFFFE := by
  refine ⟨fun data hb => ?_, ?_, ?_, ?_⟩
  · rw [Ping.checkSumVal, Ping.specChecksum]
    rw [Ping.sumLoop_eq data 0 (by norm_num),
      Ping.specFoldl_eq data hb 0 (by norm_num)]
    have h := Ping.fold16_lt ((0 + Ping.natSum data) % 2 ^ 32)
    omega
  · rw [Ping.checkSumVal]
    have h1 : Ping.sumLoop [] 0 = 0 := rfl
    rw [h1, Ping.fold16]
    norm_num
  · rw [Ping.checkSumVal]
    have h1 : Ping.sumLoop [0x00, 0x01] 0 = 1 := by norm_num [Ping.sumLoop]
    rw [h1, Ping.fold16]
    norm_num
  · rw [Ping.checkSumVal]
    have h1 : Ping.sumLoop [0xFF, 0xFF, 0x01] 0 = 2 ^ 16 := by
      norm_num [Ping.sumLoop]
    have h2 : Ping.fold16 (2 ^ 16) = 1 := by
      rw [Ping.fold16]
      norm_num
      rw [Ping.fold16]
      norm_num
    rw [h1, h2]
    norm_num

/-- Witness for C1 at the concrete byte sequence `[1, 2, 3]`. -/
theorem checkSum_is_rfc1071_witness :
    Ping.checkSumVal [1, 2, 3] = Ping.specChecksum [1, 2, 3] :=
  checkSum_is_rfc1071.1 [1, 2, 3] (by decide)

/-- C2: the datagram built for sequence number `i` and payload size `s` has
length `8 + s`; byte 0 is 8 (Echo Request) and byte 1 is 0 (code); bytes 4-5
and bytes 6-7 each hold `uint16(i)` in big-endian order (identifier and
sequence number reuse the loop index); and bytes 2-3 hold, high byte first,
the checksum computed over the whole header+payload buffer with the checksum
field still zero. -/
theorem buildPacket_layout (i s : Nat) :
    (Ping.buildPacket i s).length = 8 + s ∧
    (Ping.buildPacket i s).getD 0 0 = 8 ∧
    (Ping.buildPacket i s).getD 1 0 = 0 ∧
    (Ping.buildPacket i s).getD 4 0 * 2 ^ 8 + (Ping.buildPacket i s).getD 5 0
      = i % 2 ^ 16 ∧
    (Ping.buildPacket i s).getD 6 0 * 2 ^ 8 + (Ping.buildPacket i s).getD 7 0
      = i % 2 ^ 16 ∧
    (Ping.buildPacket i s).getD 2 0
      = Ping.checkSumVal (Ping.icmpHeader i ++ List.replicate s 0) / 2 ^ 8 ∧
    (Ping.buildPacket i s).getD 3 0
      = Ping.checkSumVal (Ping.icmpHeader i ++ List.replicate s 0) % 2 ^ 8 := by
  simp only [Ping.buildPacket, Ping.checkSumGo, Ping.icmpHeader,
    List.cons_append, List.nil_append, List.set]
  refine ⟨?_, ?_, ?_, ?_, ?_, ?_, ?_⟩
  · simp [List.length_replicate]; omega
  all_goals simp [List.getD]
  · omega
  · omega

/-- C7: at the end of every run, however each iteration ended (checksum
failure, write failure, read error/timeout, or success), the number of sent
requests equals the number of successes plus the number of failures. -/
theorem run_sent_eq_success_add_fail (outcomes : List Ping.Outcome) :
    (Ping.run outcomes).sendCount
      = (Ping.run outcomes).successCount + (Ping.run outcomes).failCount :=
  Ping.foldl_sent_eq outcomes Ping.initStats rfl

/-- C5 counterexample: an attempt that fails at `conn.Write` with elapsed
time 5 ms contributes nothing to the statistics: starting from the initial
state, `totalTs` stays 0 instead of increasing by 5, `minTs` is not lowered
to 5, and `maxTs` is not raised to 5. -/
theorem writeFail_skips_stats_cex :
    (Ping.run [Ping.Outcome.writeFail 5]).totalTs = 0 ∧
    (Ping.run [Ping.Outcome.writeFail 5]).totalTs ≠ 0 + 5 ∧
    (Ping.run [Ping.Outcome.writeFail 5]).minTs ≠ 5 ∧
    (Ping.run [Ping.Outcome.writeFail 5]).maxTs ≠ 5 := by
  decide

/-- C5 (amended): an attempt that reaches the read step (read error/timeout
or success) feeds its elapsed time into the statistics — `totalTs` increases
by it, `minTs` is lowered to it if smaller, `maxTs` is raised to it if
larger — while an attempt that fails at the checksum or at `conn.Write`
leaves `totalTs`, `minTs` and `maxTs` unchanged. -/
theorem stats_updated_iff_reaches_read (s : Ping.Stats) (o : Ping.Outcome) :
    (o.records = true →
      (Ping.step s o).totalTs = s.totalTs + o.elapsed ∧
      (Ping.step s o).minTs = min s.minTs o.elapsed ∧
      (Ping.step s o).maxTs = max s.maxTs o.elapsed) ∧
    (o.records = false →
      (Ping.step s o).totalTs = s.totalTs ∧
      (Ping.step s o).minTs = s.minTs ∧
      (Ping.step s o).maxTs = s.maxTs) := by
  rcases o with _ | t | t | t
  · exact ⟨fun h => by simp [Ping.Outcome.records] at h, fun _ => ⟨rfl, rfl, rfl⟩⟩
  · exact ⟨fun h => by simp [Ping.Outcome.records] at h, fun _ => ⟨rfl, rfl, rfl⟩⟩
  · refine ⟨fun _ => ⟨rfl, ?_, ?_⟩, fun h => by simp [Ping.Outcome.records] at h⟩
    · show (if t < s.minTs then t else s.minTs) = min s.minTs t
      split <;> omega
    · show (if s.maxTs < t then t else s.maxTs) = max s.maxTs t
      split <;> omega
  · refine ⟨fun _ => ⟨rfl, ?_, ?_⟩, fun h => by simp [Ping.Outcome.records] at h⟩
    · show (if t < s.minTs then t else s.minTs) = min s.minTs t
      split <;> omega
    · show (if s.maxTs < t then t else s.maxTs) = max s.maxTs t
      split <;> omega

/-- Witness for C5 (amended) at concrete inputs: a successful attempt of
5 ms increases `totalTs` by 5, and a write-failed attempt of 3 ms leaves
`totalTs` unchanged. -/
theorem stats_updated_iff_reaches_read_witness :
    (Ping.step Ping.initStats (Ping.Outcome.success 5)).totalTs
      = Ping.initStats.totalTs + 5 ∧
    (Ping.step Ping.initStats (Ping.Outcome.writeFail 3)).totalTs
      = Ping.initStats.totalTs :=
  ⟨((stats_updated_iff_reaches_read Ping.initStats (Ping.Outcome.success 5)).1
      (by decide)).1,
   ((stats_updated_iff_reaches_read Ping.initStats (Ping.Outcome.writeFail 3)).2
      (by decide)).1⟩

/-- C6 counterexample: a run of one attempt that fails at `conn.Write` has
`sendCount = 1 > 0` but `minTs = 2^31 - 1` (the untouched sentinel) exceeds
`avgTs = totalTs / sendCount = 0`. -/
theorem min_le_avg_cex :
    0 < (Ping.run [Ping.Outcome.writeFail 0]).sendCount ∧
    ¬ ((Ping.run [Ping.Outcome.writeFail 0]).minTs ≤
        (Ping.run [Ping.Outcome.writeFail 0]).totalTs
          / (Ping.run [Ping.Outcome.writeFail 0]).sendCount) := by
  decide

/-- C6 (amended): for every completed run with `sendCount > 0` in which
every attempt reached the read step (so its elapsed time was recorded),
`minTs ≤ totalTs / sendCount ≤ maxTs`. -/
theorem min_le_avg_le_max (outcomes : List Ping.Outcome)
    (hrec : ∀ o ∈ outcomes, o.records = true)
    (hpos : 0 < (Ping.run outcomes).sendCount) :
    (Ping.run outcomes).minTs
      ≤ (Ping.run outcomes).totalTs / (Ping.run outcomes).sendCount ∧
    (Ping.run outcomes).totalTs / (Ping.run outcomes).sendCount
      ≤ (Ping.run outcomes).maxTs := by
  obtain ⟨h1, h2⟩ :=
    Ping.foldl_bounds outcomes hrec Ping.initStats (by simp [Ping.initStats]) (by simp [Ping.initStats])
  constructor
  · exact (Nat.le_div_iff_mul_le hpos).2 h1
  · calc (Ping.run outcomes).totalTs / (Ping.run outcomes).sendCount
        ≤ (Ping.run outcomes).maxTs * (Ping.run outcomes).sendCount
            / (Ping.run outcomes).sendCount := Nat.div_le_div_right h2
      _ = (Ping.run outcomes).maxTs := Nat.mul_div_cancel _ hpos

/-- Witness for C6 (amended) at the concrete run `[readFail 3, success 7]`:
every attempt records, `sendCount = 2 > 0`, and `3 ≤ 5 ≤ 7`. -/
theorem min_le_avg_le_max_witness :
    (Ping.run [Ping.Outcome.readFail 3, Ping.Outcome.success 7]).minTs
      ≤ (Ping.run [Ping.Outcome.readFail 3, Ping.Outcome.success 7]).totalTs
        / (Ping.run [Ping.Outcome.readFail 3, Ping.Outcome.success 7]).sendCount ∧
    (Ping.run [Ping.Outcome.readFail 3, Ping.Outcome.success 7]).totalTs
      / (Ping.run [Ping.Outcome.readFail 3, Ping.Outcome.success 7]).sendCount
      ≤ (Ping.run [Ping.Outcome.readFail 3, Ping.Outcome.success 7]).maxTs :=
  min_le_avg_le_max [Ping.Outcome.readFail 3, Ping.Outcome.success 7]
    (by decide) (by decide)

/-- C8: a datagram received within the deadline is always accepted as the
reply to the current request — the iteration is classified a success, and
the reply line is built, for every received buffer whatever its ICMP type,
identifier or sequence bytes, from bytes 12-15 (source address), byte 8
(TTL) and the received length minus 28 (payload length). -/
theorem reply_accepted_unvalidated :
    (∀ (buf : List Nat) (n : Nat),
      Ping.handleRead buf n none =
        some { src0 := buf.getD 12 0, src1 := buf.getD 13 0
               src2 := buf.getD 14 0, src3 := buf.getD 15 0
               payloadLen := (n : Int) - 28, ttl := buf.getD 8 0 }) ∧
    ∀ (i size t : Nat),
      Ping.attemptOutcome i size none none t = Ping.Outcome.success t :=
  ⟨fun _ _ => rfl, fun _ _ _ => rfl⟩

/-- C10: `checkSum` returns a `nil` error on every input, so no iteration
is ever classified as failed by the checksum branch. -/
theorem checkSum_error_nil :
    (∀ data : List Nat, (Ping.checkSumGo data).2 = none) ∧
    ∀ (i size : Nat) (writeErr readErr : Option String) (t : Nat),
      Ping.attemptOutcome i size writeErr readErr t ≠ Ping.Outcome.checksumFail := by
  refine ⟨fun _ => rfl, fun i size we re t => ?_⟩
  show (match we with
    | some _ => Ping.Outcome.writeFail t
    | none => match re with
      | some _ => Ping.Outcome.readFail t
      | none => Ping.Outcome.success t) ≠ Ping.Outcome.checksumFail
  cases we <;> cases re <;> simp

/-- C3 (code evaluated at the failing input): in a run of four attempts with
one failure, the value the source passes to the `%.2f%%` verb is
`failCount / sendCount = 1/4 = 0.25`, not the 25 that a percentage with two
decimal places would require. -/
theorem loss_value_not_percentage :
    Ping.lossValue (Ping.run [Ping.Outcome.success 1, Ping.Outcome.success 1,
      Ping.Outcome.success 1, Ping.Outcome.readFail 1]) = 1 / 4 ∧
    (1 / 4 : ℚ) ≠ 25 := by
  constructor
  · norm_num [Ping.lossValue, Ping.run, Ping.step, Ping.initStats]
  · norm_num

/-- C4 (code evaluated at the failing input): with `count = 0` the loop body
never runs, so the summary is produced from `sendCount = successCount =
failCount = 0`, and the average computation `totalTs / int64(sendCount)`
divides by zero (modelled as `none`), a run-time panic in Go. -/
theorem summary_count_zero_divides_by_zero :
    (Ping.run []).sendCount = 0 ∧ (Ping.run []).successCount = 0 ∧
    (Ping.run []).failCount = 0 ∧ Ping.avgTs (Ping.run []) = none := by
  decide

/-- C9: for every buffer of length at least 4, computing the checksum over
the buffer with its checksum field zeroed, writing it into byte offsets 2-3
high byte first (as `ping` does before transmission), and recomputing the
checksum over the result yields zero. -/
theorem embedded_checksum_rechecks_zero (data : List Nat) (h : 4 ≤ data.length) :
    Ping.checkSumVal
      ((data.set 2 (Ping.checkSumVal ((data.set 2 0).set 3 0) / 2 ^ 8)).set 3
        (Ping.checkSumVal ((data.set 2 0).set 3 0) % 2 ^ 8)) = 0 := by
  rcases data with _ | ⟨b0, _ | ⟨b1, _ | ⟨b2, _ | ⟨b3, rest⟩⟩⟩⟩
  · simp at h
  · simp at h
  · simp at h
  · simp at h
  show Ping.checkSumVal
      (b0 :: b1 :: (Ping.checkSumVal (b0 :: b1 :: 0 :: 0 :: rest) / 2 ^ 8) ::
        (Ping.checkSumVal (b0 :: b1 :: 0 :: 0 :: rest) % 2 ^ 8) :: rest) = 0
  set c := Ping.checkSumVal (b0 :: b1 :: 0 :: 0 :: rest) with hc
  set N := Ping.natSum (b0 :: b1 :: 0 :: 0 :: rest) with hN
  set x := N % 2 ^ 32 with hxdef
  set F := Ping.fold16 x with hFdef
  have hx : Ping.sumLoop (b0 :: b1 :: 0 :: 0 :: rest) 0 = x := by
    rw [Ping.sumLoop_eq _ 0 (by norm_num), Nat.zero_add, ← hN]
  have hc_val : c = (2 ^ 32 - 1 - F) % 2 ^ 16 := by
    rw [hc, Ping.checkSumVal, hx]
  have hF_lt : F < 2 ^ 16 := Ping.fold16_lt x
  have hF_le : F ≤ x := Ping.fold16_le x
  have hF_mod : F % (2 ^ 16 - 1) = x % (2 ^ 16 - 1) := Ping.fold16_mod x
  have hF_pos : 0 < x → 0 < F := fun hxp => Ping.fold16_pos x hxp
  have hx_lt : x < 2 ^ 32 := Nat.mod_lt _ (by norm_num)
  have key : x + c < 2 ^ 32 ∧ (x + c) % (2 ^ 16 - 1) = 0 ∧ 0 < x + c := by omega
  have hM : Ping.natSum (b0 :: b1 :: (c / 2 ^ 8) :: (c % 2 ^ 8) :: rest) = N + c := by
    simp only [Ping.natSum, hN]
    omega
  have hsum : Ping.sumLoop (b0 :: b1 :: (c / 2 ^ 8) :: (c % 2 ^ 8) :: rest) 0
      = x + c := by
    rw [Ping.sumLoop_eq _ 0 (by norm_num), Nat.zero_add, hM]
    omega
  have hG_lt : Ping.fold16 (x + c) < 2 ^ 16 := Ping.fold16_lt _
  have hG_mod : Ping.fold16 (x + c) % (2 ^ 16 - 1) = (x + c) % (2 ^ 16 - 1) :=
    Ping.fold16_mod _
  have hG_pos : 0 < Ping.fold16 (x + c) := Ping.fold16_pos _ key.2.2
  rw [Ping.checkSumVal, hsum]
  omega

/-- Witness for C9 at a concrete 8-byte buffer. -/
theorem embedded_checksum_rechecks_zero_witness :
    Ping.checkSumVal
      (([8, 0, 7, 7, 0, 1, 0, 1].set 2
          (Ping.checkSumVal (([8, 0, 7, 7, 0, 1, 0, 1].set 2 0).set 3 0) / 2 ^ 8)).set 3
        (Ping.checkSumVal (([8, 0, 7, 7, 0, 1, 0, 1].set 2 0).set 3 0) % 2 ^ 8)) = 0 :=
  embedded_checksum_rechecks_zero [8, 0, 7, 7, 0, 1, 0, 1] (by decide)
